import Mathlib

set_option autoImplicit false

/-!
Shallow embedding of the tiered cache layer of the url-shortener server
(`src/server/src/services/CacheService.ts` and the request-pattern tracker in
the cache middleware).  Timestamps are naturals (milliseconds, `Date.now()`),
passed explicitly to each operation.  The JavaScript `Map` is modelled as an
association list in insertion order: `replaceKey` updates the first matching
binding in place (keeping its position) and appends a fresh binding at the
end, `eraseKey` removes the first matching binding — exactly the behaviour of
`Map.set` / `Map.delete` on a map whose keys are unique.  The remote Redis
tier is modelled by a string-valued store `remote` plus a reachability flag
`remoteUp`; a remote call throws exactly when `remoteUp = false`.  The
(de)serialization performed by `JSON.stringify` / `JSON.parse` is abstracted
by `encode` / `decode` parameters, `decode` being partial (`Option`) since
`JSON.parse` can throw on a malformed payload.
-/

namespace UrlShortener

/-- One binding lookup in an association list (`Map.get`). -/
def lookupKey {α : Type} (k : String) : List (String × α) → Option α
  | [] => none
  | p :: rest => if p.1 = k then some p.2 else lookupKey k rest

/-- Model of `Map.set`: replace the first binding of `k` in place, else append. -/
def replaceKey {α : Type} (k : String) (v : α) : List (String × α) → List (String × α)
  | [] => [(k, v)]
  | p :: rest => if p.1 = k then (k, v) :: rest else p :: replaceKey k v rest

/-- Model of `Map.delete`: remove the first binding of `k`. -/
def eraseKey {α : Type} (k : String) : List (String × α) → List (String × α)
  | [] => []
  | p :: rest => if p.1 = k then rest else p :: eraseKey k rest

/-- Model of `Map.has`. -/
def hasKey {α : Type} (k : String) (l : List (String × α)) : Bool :=
  (lookupKey k l).isSome

/-- Structure `CacheEntry<T>` from CacheService.ts. -/
structure CacheEntry (T : Type) where
  value : T
  lastAccessed : Nat
  accessCount : Nat
  deriving Repr, DecidableEq

/-- Structure `CacheStats` from CacheService.ts; `hitRate` is a rational (the TS code
computes it with float division, modelled exactly over `ℚ`). -/
structure CacheStats where
  hits : Nat
  misses : Nat
  evictions : Nat
  totalRequests : Nat
  hitRate : ℚ
  redisConnected : Bool
  fallbackActive : Bool
  deriving Repr, DecidableEq

/-- The state of a `CacheService<T>` instance, together with the modelled
remote tier: `remote` is the remote key-value store (serialized values) and
`remoteUp` tells whether remote calls currently succeed (a call made while
`remoteUp = false` is the model of a thrown/rejected Redis call). -/
structure CacheService (T : Type) where
  cache : List (String × CacheEntry T)
  maxSize : Nat
  ttl : Nat
  stats : CacheStats
  redisConnected : Bool
  remote : List (String × String)
  remoteUp : Bool
  deriving Repr, DecidableEq

namespace CacheService

/-- Fresh statistics record (field initializer of `stats`). -/
def initStats : CacheStats :=
  { hits := 0, misses := 0, evictions := 0, totalRequests := 0, hitRate := 0,
    redisConnected := false, fallbackActive := false }

/-- Constructor in local-only mode: Redis credentials absent, so
`initializeRedis` sets `fallbackActive` and leaves the client null.
`ttl = ttlMinutes * 60 * 1000`. -/
def mkLocal (T : Type) (maxSize ttlMinutes : Nat) : CacheService T :=
  { cache := [], maxSize := maxSize, ttl := ttlMinutes * 60 * 1000,
    stats := { initStats with fallbackActive := true },
    redisConnected := false, remote := [], remoteUp := false }

/-- Constructor with a connected remote tier holding store `r`. -/
def mkConnected (T : Type) (maxSize ttlMinutes : Nat) (r : List (String × String)) :
    CacheService T :=
  { cache := [], maxSize := maxSize, ttl := ttlMinutes * 60 * 1000,
    stats := { initStats with redisConnected := true },
    redisConnected := true, remote := r, remoteUp := true }

/-- Method `isExpired`: `Date.now() - entry.lastAccessed > this.ttl`. -/
def isExpired {T : Type} (ttl now : Nat) (e : CacheEntry T) : Bool :=
  decide (ttl < now - e.lastAccessed)

/-- Method `updateHitRate`. -/
def updateHitRate (s : CacheStats) : CacheStats :=
  { s with hitRate :=
      if 0 < s.totalRequests then (s.hits : ℚ) / (s.totalRequests : ℚ) * 100 else 0 }

/-- Method `handleRedisError`: mark the remote tier disconnected and activate
fallback (the 30 s reconnect timer is outside this per-operation model). -/
def handleRedisError {T : Type} (st : CacheService T) : CacheService T :=
  { st with redisConnected := false,
            stats := { st.stats with redisConnected := false, fallbackActive := true } }

/-- Method `getFromMemory`. -/
def getFromMemory {T : Type} (st : CacheService T) (key : String) (now : Nat) :
    Option T × CacheService T :=
  match lookupKey key st.cache with
  | none =>
      (none, { st with stats := updateHitRate { st.stats with misses := st.stats.misses + 1 } })
  | some entry =>
      if isExpired st.ttl now entry then
        (none, { st with cache := eraseKey key st.cache,
                         stats := updateHitRate { st.stats with misses := st.stats.misses + 1 } })
      else
        (some entry.value,
         { st with cache := replaceKey key
                     ({ entry with lastAccessed := now, accessCount := entry.accessCount + 1 })
                     st.cache,
                   stats := updateHitRate { st.stats with hits := st.stats.hits + 1 } })

/-- Accumulator pass of `evictLRU`'s scan: `oldestTime` starts at `Infinity`
(modelled by a `none` accumulator) and is beaten only by a strictly smaller
`lastAccessed`. -/
def findLRUAux {T : Type} : Option (String × Nat) → List (String × CacheEntry T) →
    Option (String × Nat)
  | acc, [] => acc
  | none, p :: rest => findLRUAux (some (p.1, p.2.lastAccessed)) rest
  | some (k0, t0), p :: rest =>
      if p.2.lastAccessed < t0 then findLRUAux (some (p.1, p.2.lastAccessed)) rest
      else findLRUAux (some (k0, t0)) rest

/-- Method `evictLRU`.  The final `if (oldestKey)` is a JS truthiness test:
it fails both when the scan found nothing (`oldestKey === null`, empty map)
and when the least-recently-accessed key is the empty string (falsy), in
which case nothing is deleted and `evictions` is not incremented. -/
def evictLRU {T : Type} (st : CacheService T) : CacheService T :=
  match findLRUAux none st.cache with
  | none => st
  | some (k, _) =>
      if k = "" then st
      else
        { st with cache := eraseKey k st.cache,
                  stats := { st.stats with evictions := st.stats.evictions + 1 } }

/-- Method `setInMemory`. -/
def setInMemory {T : Type} (st : CacheService T) (key : String) (value : T) (now : Nat) :
    CacheService T :=
  let st1 := if st.maxSize ≤ st.cache.length ∧ hasKey key st.cache = false
             then evictLRU st else st
  { st1 with cache :=
      replaceKey key ({ value := value, lastAccessed := now, accessCount := 1 }) st1.cache }

/-- Method `get`: Redis first (decode on a string payload can fail, modelling a
`JSON.parse` throw that lands in the same catch as a network error), then the
in-memory fallback. -/
def get {T : Type} (decode : String → Option T) (st : CacheService T) (key : String)
    (now : Nat) : Option T × CacheService T :=
  let st0 : CacheService T :=
    { st with stats := { st.stats with totalRequests := st.stats.totalRequests + 1 } }
  if st0.redisConnected then
    if st0.remoteUp then
      match lookupKey key st0.remote with
      | some raw =>
          let st1 : CacheService T :=
            { st0 with stats := updateHitRate { st0.stats with hits := st0.stats.hits + 1 } }
          match decode raw with
          | some v => (some v, st1)
          | none => getFromMemory (handleRedisError st1) key now
      | none => getFromMemory st0 key now
    else
      getFromMemory (handleRedisError st0) key now
  else
    getFromMemory st0 key now

/-- Method `set`: Redis `setex` first (on success the write is mirrored in memory;
on failure `handleRedisError` then the in-memory fallback), else memory only. -/
def set {T : Type} (encode : T → String) (st : CacheService T) (key : String) (value : T)
    (now : Nat) : CacheService T :=
  if st.redisConnected then
    if st.remoteUp then
      setInMemory { st with remote := replaceKey key (encode value) st.remote } key value now
    else
      setInMemory (handleRedisError st) key value now
  else
    setInMemory st key value now

/-- Method `delete`: try both tiers; Redis `del` reports whether the key existed. -/
def delete {T : Type} (st : CacheService T) (key : String) : Bool × CacheService T :=
  let r : Bool × CacheService T :=
    if st.redisConnected then
      if st.remoteUp then
        (hasKey key st.remote, { st with remote := eraseKey key st.remote })
      else
        (false, handleRedisError st)
    else
      (false, st)
  let memoryDeleted := hasKey key r.2.cache
  (r.1 || memoryDeleted, { r.2 with cache := eraseKey key r.2.cache })

/-- In-memory part of `has` (does not refresh `lastAccessed`). -/
def hasMemory {T : Type} (st : CacheService T) (key : String) (now : Nat) :
    Bool × CacheService T :=
  match lookupKey key st.cache with
  | none => (false, st)
  | some entry =>
      if isExpired st.ttl now entry then
        (false, { st with cache := eraseKey key st.cache })
      else
        (true, st)

/-- Method `has`: Redis `exists` first, then the in-memory check honouring expiry. -/
def has {T : Type} (st : CacheService T) (key : String) (now : Nat) :
    Bool × CacheService T :=
  if st.redisConnected then
    if st.remoteUp then
      if hasKey key st.remote then (true, st) else hasMemory st key now
    else
      hasMemory (handleRedisError st) key now
  else
    hasMemory st key now

/-- Method `resetStats` (keeps connectivity flags). -/
def resetStats {T : Type} (st : CacheService T) : CacheService T :=
  { st with stats :=
      { hits := 0, misses := 0, evictions := 0, totalRequests := 0, hitRate := 0,
        redisConnected := st.redisConnected, fallbackActive := st.stats.fallbackActive } }

/-- Method `clear`: Redis `flushall`, then clear the in-memory map and reset stats. -/
def clear {T : Type} (st : CacheService T) : CacheService T :=
  let st1 : CacheService T :=
    if st.redisConnected then
      if st.remoteUp then { st with remote := [] } else handleRedisError st
    else st
  resetStats { st1 with cache := [] }

/-- Method `cleanup`: purge expired entries from the in-memory map, returning how
many were removed. -/
def cleanup {T : Type} (st : CacheService T) (now : Nat) : Nat × CacheService T :=
  ((st.cache.filter (fun p => isExpired st.ttl now p.2)).length,
   { st with cache := st.cache.filter (fun p => !(isExpired st.ttl now p.2)) })

/-- Method `size` (in-memory map only). -/
def size {T : Type} (st : CacheService T) : Nat :=
  st.cache.length

end CacheService

/-- Structure `RequestPattern` from the cache middleware. -/
structure RequestPattern where
  shortCode : String
  requestCount : Nat
  lastAccessed : Nat
  avgResponseTime : ℚ
  deriving Repr, DecidableEq

namespace PatternTracker

/-- The pattern-tracking step of `intelligentRedirectCache` for one observed
request: fetch-or-default, bump `requestCount`, stamp `lastAccessed`, store
back; the Boolean is `shouldPrioritizeCache = pattern.requestCount > 3`,
which triggers the asynchronous `precacheRelatedUrls`. -/
def trackRequest (patterns : List (String × RequestPattern)) (shortCode : String)
    (now : Nat) : List (String × RequestPattern) × Bool :=
  let p0 := (lookupKey shortCode patterns).getD
    ({ shortCode := shortCode, requestCount := 0, lastAccessed := 0, avgResponseTime := 0 })
  let p1 : RequestPattern :=
    { p0 with requestCount := p0.requestCount + 1, lastAccessed := now }
  (replaceKey shortCode p1 patterns, decide (3 < p1.requestCount))

/-- The `hotUrls` count of `getRequestPatternStats`:
`patterns.filter((p) => p.requestCount > 5).length`. -/
def hotUrlsCount (patterns : List (String × RequestPattern)) : Nat :=
  (patterns.filter (fun p => decide (5 < p.2.requestCount))).length

/-- The `slowUrls` count of `getRequestPatternStats`. -/
def slowUrlsCount (patterns : List (String × RequestPattern)) : Nat :=
  (patterns.filter (fun p => decide ((500 : ℚ) < p.2.avgResponseTime))).length

/-- The `totalPatterns` field of `getRequestPatternStats`. -/
def totalPatterns (patterns : List (String × RequestPattern)) : Nat :=
  patterns.length

end PatternTracker

/-- State after a sequence of `get()` calls, each a `(key, timestamp)` pair. -/
def runGets {T : Type} (decode : String → Option T) (st : CacheService T) :
    List (String × Nat) → CacheService T
  | [] => st
  | op :: rest => runGets decode (CacheService.get decode st op.1 op.2).2 rest

/-- Concrete decoder standing for `JSON.parse` on a `CacheService<number>`:
only the payload "7" decodes. -/
def decodeNat : String → Option Nat :=
  fun s => if s = "7" then some 7 else none

/-- A connected cache whose remote tier holds a malformed payload for "k". -/
def malformedRemoteState : CacheService Nat :=
  CacheService.mkConnected Nat 3 1 [("k", "oops")]

/-- Eviction scenario: capacity 3, insert A, B, C at times 1, 2, 3, read A at
time 4 (refreshing its `lastAccessed`), then insert D at time 5. -/
def lruScenario : CacheService Nat :=
  CacheService.setInMemory
    ((CacheService.getFromMemory
      (CacheService.setInMemory (CacheService.setInMemory (CacheService.setInMemory
        (CacheService.mkLocal Nat 3 1) "A" 10 1) "B" 20 2) "C" 30 3) "A" 4).2)
    "D" 40 5

/-- A one-entry local cache (used to instantiate eviction hypotheses). -/
def singletonCache : CacheService Nat :=
  CacheService.setInMemory (CacheService.mkLocal Nat 3 1) "X" 1 1

/-- Capacity-1 cache holding the empty-string key, then a second, fresh key
written while at capacity: the eviction scan selects the empty string, the
falsy `if (oldestKey)` guard skips the deletion, and the insert proceeds. -/
def emptyKeyOverflow : CacheService Nat :=
  CacheService.setInMemory
    (CacheService.setInMemory (CacheService.mkLocal Nat 1 1) "" 1 1) "a" 2 2

/-- The statistics bookkeeping `get` performs on a remote hit before decoding:
one more request, one more hit, hit rate recomputed. -/
def remoteHitStats (s : CacheStats) : CacheStats :=
  CacheService.updateHitRate
    ({ s with hits := s.hits + 1, totalRequests := s.totalRequests + 1 })

/-- A cache that believes the remote tier is connected while every remote
call in fact fails (the model of an always-failing Redis). -/
def downRemoteState : CacheService Nat :=
  { CacheService.mkConnected Nat 3 1 [] with remoteUp := false }

/-- Four tracked requests for the same short code, times 1..4. -/
def trackFourTimes : List (String × RequestPattern) × Bool :=
  PatternTracker.trackRequest
    (PatternTracker.trackRequest
      (PatternTracker.trackRequest
        (PatternTracker.trackRequest [] "a" 1).1 "a" 2).1 "a" 3).1 "a" 4

/-- The documented hit-rate relation: `hitRate = hits / totalRequests × 100`,
defined as 0 when `totalRequests = 0`. -/
def hitRateOK (s : CacheStats) : Prop :=
  s.hitRate = if 0 < s.totalRequests then (s.hits : ℚ) / (s.totalRequests : ℚ) * 100 else 0

/-- Hit/miss accounting: every counted request was classified as a hit or a
miss. -/
def countsOK (s : CacheStats) : Prop :=
  s.hits + s.misses = s.totalRequests

/-! ### Association-list lemmas -/

theorem lookupKey_replaceKey_self {α : Type} (k : String) (v : α) (l : List (String × α)) :
    lookupKey k (replaceKey k v l) = some v := by
  induction l with
  | nil => simp [lookupKey, replaceKey]
  | cons p rest ih =>
      by_cases h : p.1 = k
      · simp [replaceKey, h, lookupKey]
      · simp [replaceKey, h, lookupKey, ih]

theorem lookupKey_replaceKey_ne {α : Type} {k k0 : String} (v : α) (l : List (String × α))
    (h : k ≠ k0) : lookupKey k (replaceKey k0 v l) = lookupKey k l := by
  have h0 : ¬ (k0 = k) := fun hh => h hh.symm
  induction l with
  | nil => simp [lookupKey, replaceKey, h0]
  | cons p rest ih =>
      by_cases hp : p.1 = k0
      · have hpk : ¬ (p.1 = k) := by rw [hp]; exact h0
        simp [replaceKey, hp, lookupKey, h0, hpk]
      · by_cases hk : p.1 = k
        · simp [replaceKey, hp, lookupKey, hk, h]
        · simp [replaceKey, hp, lookupKey, hk, ih]

theorem lookupKey_eraseKey_ne {α : Type} {k k0 : String} (l : List (String × α))
    (h : k ≠ k0) : lookupKey k (eraseKey k0 l) = lookupKey k l := by
  have h0 : ¬ (k0 = k) := fun hh => h hh.symm
  induction l with
  | nil => simp [eraseKey]
  | cons p rest ih =>
      by_cases hp : p.1 = k0
      · have hpk : ¬ (p.1 = k) := by rw [hp]; exact h0
        simp [eraseKey, hp, lookupKey, hpk, h0]
      · by_cases hk : p.1 = k
        · simp [eraseKey, hp, lookupKey, hk, h]
        · simp [eraseKey, hp, lookupKey, hk, ih]

theorem lookupKey_eq_none_of_not_mem_keys {α : Type} {k : String} {l : List (String × α)}
    (h : k ∉ l.map Prod.fst) : lookupKey k l = none := by
  induction l with
  | nil => simp [lookupKey]
  | cons p rest ih =>
      simp only [List.map_cons, List.mem_cons] at h
      push_neg at h
      have h1 : ¬ (p.1 = k) := Ne.symm h.1
      simp [lookupKey, h1, ih h.2]

theorem lookupKey_eraseKey_self {α : Type} {k : String} {l : List (String × α)}
    (hnd : (l.map Prod.fst).Nodup) : lookupKey k (eraseKey k l) = none := by
  induction l with
  | nil => simp [eraseKey, lookupKey]
  | cons p rest ih =>
      simp only [List.map_cons, List.nodup_cons] at hnd
      by_cases hp : p.1 = k
      · have h1 : k ∉ rest.map Prod.fst := by rw [← hp]; exact hnd.1
        simp [eraseKey, hp, lookupKey_eq_none_of_not_mem_keys h1]
      · simp [eraseKey, hp, lookupKey, hp, ih hnd.2]

theorem eraseKey_of_lookup_none {α : Type} {k : String} {l : List (String × α)}
    (h : lookupKey k l = none) : eraseKey k l = l := by
  induction l with
  | nil => simp [eraseKey]
  | cons p rest ih =>
      by_cases hp : p.1 = k
      · simp [lookupKey, hp] at h
      · simp only [lookupKey, hp, if_neg hp] at h
        simp [eraseKey, hp, ih h]

theorem lookupKey_eraseKey_none {α : Type} {k k0 : String} {l : List (String × α)}
    (h : lookupKey k l = none) : lookupKey k (eraseKey k0 l) = none := by
  by_cases hk : k = k0
  · subst hk
    induction l with
    | nil => simp [eraseKey, lookupKey]
    | cons p rest ih =>
        by_cases hp : p.1 = k
        · simp [lookupKey, hp] at h
        · simp only [lookupKey, hp, if_neg hp] at h
          simp [eraseKey, hp, lookupKey, ih h]
  · rw [lookupKey_eraseKey_ne _ hk]; exact h

theorem length_replaceKey_mem {α : Type} {k : String} {l : List (String × α)} (v : α)
    (h : (lookupKey k l).isSome) : (replaceKey k v l).length = l.length := by
  induction l with
  | nil => simp [lookupKey] at h
  | cons p rest ih =>
      by_cases hp : p.1 = k
      · simp [replaceKey, hp]
      · simp only [lookupKey, hp, if_neg hp] at h
        simp [replaceKey, hp, ih h]

theorem length_replaceKey_new {α : Type} {k : String} {l : List (String × α)} (v : α)
    (h : lookupKey k l = none) : (replaceKey k v l).length = l.length + 1 := by
  induction l with
  | nil => simp [replaceKey]
  | cons p rest ih =>
      by_cases hp : p.1 = k
      · simp [lookupKey, hp] at h
      · simp only [lookupKey, hp, if_neg hp] at h
        simp [replaceKey, hp, ih h]

theorem length_eraseKey_mem {α : Type} {k : String} {l : List (String × α)}
    (h : (lookupKey k l).isSome) : (eraseKey k l).length + 1 = l.length := by
  induction l with
  | nil => simp [lookupKey] at h
  | cons p rest ih =>
      by_cases hp : p.1 = k
      · simp [eraseKey, hp]
      · simp only [lookupKey, hp, if_neg hp] at h
        simp [eraseKey, hp, ih h]

theorem lookupKey_isSome_of_mem {α : Type} {k : String} {v : α} {l : List (String × α)}
    (h : (k, v) ∈ l) : (lookupKey k l).isSome := by
  induction l with
  | nil => simp at h
  | cons p rest ih =>
      rcases List.mem_cons.mp h with h1 | h2
      · simp [lookupKey, ← h1]
      · by_cases hp : p.1 = k
        · simp [lookupKey, hp]
        · simp [lookupKey, hp, ih h2]

/-! ### Specification of the LRU scan -/

theorem findLRUAux_some_spec {T : Type} (l : List (String × CacheEntry T)) (k0 : String)
    (t0 : Nat) :
    ∃ k t, CacheService.findLRUAux (some (k0, t0)) l = some (k, t) ∧
      ((k, t) = (k0, t0) ∨ ∃ e : CacheEntry T, (k, e) ∈ l ∧ e.lastAccessed = t) ∧
      t ≤ t0 ∧ ∀ p ∈ l, t ≤ p.2.lastAccessed := by
  induction l generalizing k0 t0 with
  | nil => exact ⟨k0, t0, rfl, Or.inl rfl, le_refl _, by simp⟩
  | cons p rest ih =>
      by_cases hlt : p.2.lastAccessed < t0
      · obtain ⟨k, t, heq, horig, hle, hmin⟩ := ih p.1 p.2.lastAccessed
        refine ⟨k, t, ?_, ?_, ?_, ?_⟩
        · simpa [CacheService.findLRUAux, hlt] using heq
        · right
          rcases horig with h1 | h2
          · rcases Prod.mk.inj h1 with ⟨hk, ht⟩
            refine ⟨p.2, ?_, ht.symm⟩
            rw [hk]
            have hp : (p.1, p.2) = p := rfl
            rw [hp]
            exact List.mem_cons_self _ _
          · obtain ⟨e, hmem, hla⟩ := h2
            exact ⟨e, List.mem_cons_of_mem _ hmem, hla⟩
        · exact le_trans hle (le_of_lt hlt)
        · intro q hq
          rcases List.mem_cons.mp hq with h1 | h2
          · rw [h1]; exact hle
          · exact hmin q h2
      · obtain ⟨k, t, heq, horig, hle, hmin⟩ := ih k0 t0
        refine ⟨k, t, ?_, ?_, hle, ?_⟩
        · simpa [CacheService.findLRUAux, hlt] using heq
        · rcases horig with h1 | h2
          · exact Or.inl h1
          · obtain ⟨e, hmem, hla⟩ := h2
            exact Or.inr ⟨e, List.mem_cons_of_mem _ hmem, hla⟩
        · intro q hq
          rcases List.mem_cons.mp hq with h1 | h2
          · rw [h1]
            exact le_trans hle (not_lt.mp hlt)
          · exact hmin q h2

theorem findLRU_spec {T : Type} (l : List (String × CacheEntry T)) (h : l ≠ []) :
    ∃ k t, CacheService.findLRUAux none l = some (k, t) ∧
      (∃ e : CacheEntry T, (k, e) ∈ l ∧ e.lastAccessed = t) ∧
      ∀ p ∈ l, t ≤ p.2.lastAccessed := by
  match l with
  | [] => exact absurd rfl h
  | p :: rest =>
      obtain ⟨k, t, heq, horig, hle, hmin⟩ := findLRUAux_some_spec rest p.1 p.2.lastAccessed
      refine ⟨k, t, ?_, ?_, ?_⟩
      · simpa [CacheService.findLRUAux] using heq
      · rcases horig with h1 | h2
        · rcases Prod.mk.inj h1 with ⟨hk, ht⟩
          refine ⟨p.2, ?_, ht.symm⟩
          rw [hk]
          have hp : (p.1, p.2) = p := rfl
          rw [hp]
          exact List.mem_cons_self _ _
        · obtain ⟨e, hmem, hla⟩ := h2
          exact ⟨e, List.mem_cons_of_mem _ hmem, hla⟩
      · intro q hq
        rcases List.mem_cons.mp hq with h1 | h2
        · rw [h1]; exact hle
        · exact hmin q h2

/-! ### Frame lemmas: which fields each operation can touch -/

theorem evictLRU_redisConnected {T : Type} (st : CacheService T) :
    (CacheService.evictLRU st).redisConnected = st.redisConnected := by
  cases hf : CacheService.findLRUAux none st.cache with
  | none => simp [CacheService.evictLRU, hf]
  | some p =>
      cases p
      simp only [CacheService.evictLRU, hf]
      split <;> rfl

theorem evictLRU_ttl {T : Type} (st : CacheService T) :
    (CacheService.evictLRU st).ttl = st.ttl := by
  cases hf : CacheService.findLRUAux none st.cache with
  | none => simp [CacheService.evictLRU, hf]
  | some p =>
      cases p
      simp only [CacheService.evictLRU, hf]
      split <;> rfl

theorem evictLRU_maxSize {T : Type} (st : CacheService T) :
    (CacheService.evictLRU st).maxSize = st.maxSize := by
  cases hf : CacheService.findLRUAux none st.cache with
  | none => simp [CacheService.evictLRU, hf]
  | some p =>
      cases p
      simp only [CacheService.evictLRU, hf]
      split <;> rfl

theorem evictLRU_stats {T : Type} (st : CacheService T) :
    (CacheService.evictLRU st).stats =
      { st.stats with evictions := (CacheService.evictLRU st).stats.evictions } := by
  cases hf : CacheService.findLRUAux none st.cache with
  | none => simp [CacheService.evictLRU, hf]
  | some p =>
      cases p
      simp only [CacheService.evictLRU, hf]
      split <;> rfl

theorem setInMemory_redisConnected {T : Type} (st : CacheService T) (k : String) (v : T)
    (now : Nat) : (CacheService.setInMemory st k v now).redisConnected = st.redisConnected := by
  simp only [CacheService.setInMemory]
  split
  · exact evictLRU_redisConnected st
  · rfl

theorem setInMemory_ttl {T : Type} (st : CacheService T) (k : String) (v : T) (now : Nat) :
    (CacheService.setInMemory st k v now).ttl = st.ttl := by
  simp only [CacheService.setInMemory]
  split
  · exact evictLRU_ttl st
  · rfl

theorem setInMemory_maxSize {T : Type} (st : CacheService T) (k : String) (v : T) (now : Nat) :
    (CacheService.setInMemory st k v now).maxSize = st.maxSize := by
  simp only [CacheService.setInMemory]
  split
  · exact evictLRU_maxSize st
  · rfl

theorem setInMemory_stats {T : Type} (st : CacheService T) (k : String) (v : T) (now : Nat) :
    (CacheService.setInMemory st k v now).stats =
      { st.stats with evictions := (CacheService.setInMemory st k v now).stats.evictions } := by
  simp only [CacheService.setInMemory]
  split
  · exact evictLRU_stats st
  · rfl

theorem lookupKey_setInMemory_self {T : Type} (st : CacheService T) (k : String) (v : T)
    (now : Nat) :
    lookupKey k (CacheService.setInMemory st k v now).cache =
      some ({ value := v, lastAccessed := now, accessCount := 1 }) := by
  simp only [CacheService.setInMemory]
  exact lookupKey_replaceKey_self _ _ _

/-! ### Claim theorems -/

/-- Claim C1: in local-only mode (remote tier disconnected), `set(k, v)`
immediately followed by `get(k)` — no intervening eviction, expiry or other
write to `k` — returns `v`.  The only freshness requirement is that the read
happens within the TTL window of the write. -/
theorem claim_C1_set_then_get {T : Type} (decode : String → Option T) (encode : T → String)
    (st : CacheService T) (k : String) (v : T) (now now2 : Nat)
    (hlocal : st.redisConnected = false) (hfresh : now2 - now ≤ st.ttl) :
    (CacheService.get decode (CacheService.set encode st k v now) k now2).1 = some v := by
  have hset : CacheService.set encode st k v now = CacheService.setInMemory st k v now := by
    simp [CacheService.set, hlocal]
  rw [hset]
  have hconn := setInMemory_redisConnected st k v now
  rw [hlocal] at hconn
  have httl := setInMemory_ttl st k v now
  have hlook := lookupKey_setInMemory_self st k v now
  simp only [CacheService.get, hconn, if_neg Bool.false_ne_true, CacheService.getFromMemory]
  simp only [hlook, httl]
  have hexp : CacheService.isExpired st.ttl now2
      ({ value := v, lastAccessed := now, accessCount := 1 } : CacheEntry T) = false := by
    simp [CacheService.isExpired]
    omega
  rw [hexp]
  simp

/-- Witness for claim C1: a fresh local-only cache, key written then read at
the same instant. -/
theorem claim_C1_witness :
    (CacheService.get (fun _ => none) (CacheService.set (fun _ => "")
        (CacheService.mkLocal Nat 3 1) "k" 7 0) "k" 0).1 = some 7 :=
  claim_C1_set_then_get (fun _ => none) (fun _ => "") (CacheService.mkLocal Nat 3 1)
    "k" 7 0 0 rfl (by decide)

theorem hasKey_false_lookup_none {α : Type} {k : String} {l : List (String × α)}
    (h : hasKey k l = false) : lookupKey k l = none := by
  cases hl : lookupKey k l with
  | none => rfl
  | some w => rw [hasKey, hl] at h; simp at h

theorem evictLRU_of_ne_nil {T : Type} (st : CacheService T) (h : st.cache ≠ []) :
    ∃ k t, CacheService.findLRUAux none st.cache = some (k, t) ∧
      (∃ e : CacheEntry T, (k, e) ∈ st.cache ∧ e.lastAccessed = t) ∧
      (∀ p ∈ st.cache, t ≤ p.2.lastAccessed) ∧
      (k ≠ "" → CacheService.evictLRU st =
        { st with cache := eraseKey k st.cache,
                  stats := { st.stats with evictions := st.stats.evictions + 1 } }) ∧
      (k = "" → CacheService.evictLRU st = st) := by
  obtain ⟨k, t, heq, hex, hmin⟩ := findLRU_spec st.cache h
  refine ⟨k, t, heq, hex, hmin, ?_, ?_⟩
  · intro hk
    simp only [CacheService.evictLRU, heq]
    rw [if_neg hk]
  · intro hk
    simp only [CacheService.evictLRU, heq]
    rw [if_pos hk]

/-- Claim C2 is a code bug: evaluation of the program at the failing input.
With capacity 1, `set("")` then `set("a")` at capacity: the eviction scan
selects the empty-string key, the falsy `if (oldestKey)` guard skips the
deletion, and the insert proceeds — the local store grows to 2 entries,
exceeding `maxSize = 1`, with no eviction performed or counted, contradicting
the claimed size bound and exactly-one-eviction behaviour. -/
theorem claim_C2_empty_key_overflow :
    emptyKeyOverflow.maxSize = 1 ∧
    emptyKeyOverflow.cache.length = 2 ∧
    emptyKeyOverflow.stats.evictions = 0 ∧
    hasKey "" emptyKeyOverflow.cache = true ∧
    hasKey "a" emptyKeyOverflow.cache = true ∧
    emptyKeyOverflow.maxSize < CacheService.size emptyKeyOverflow := by
  refine ⟨?_, ?_, ?_, ?_, ?_, ?_⟩ <;> decide

/-- Claim C3: whenever an eviction occurs, the entry removed is one with the
globally smallest `lastAccessed` (least-recently-accessed, not oldest by
insertion).  The scan always selects a globally minimal entry; the deletion
is carried out exactly when the selected key is truthy (non-empty) — for the
falsy empty-string key the `if (oldestKey)` guard skips it and nothing at all
is evicted, so every eviction that does occur removes a minimal entry.
Concretely, with `maxSize = 3`, after inserting A, B, C in order and reading
A, inserting D evicts B — A and C survive. -/
theorem claim_C3_evicts_least_recently_accessed {T : Type} (st : CacheService T)
    (h : st.cache ≠ []) :
    (∃ k t, (∃ e : CacheEntry T, (k, e) ∈ st.cache ∧ e.lastAccessed = t) ∧
      (∀ p ∈ st.cache, t ≤ p.2.lastAccessed) ∧
      (k ≠ "" →
        (CacheService.evictLRU st).cache = eraseKey k st.cache ∧
        (CacheService.evictLRU st).stats.evictions = st.stats.evictions + 1) ∧
      (k = "" → CacheService.evictLRU st = st)) ∧
    (hasKey "B" lruScenario.cache = false ∧ hasKey "A" lruScenario.cache = true ∧
      hasKey "C" lruScenario.cache = true ∧ hasKey "D" lruScenario.cache = true ∧
      lruScenario.stats.evictions = 1 ∧ lruScenario.cache.length = 3) := by
  constructor
  · obtain ⟨k, t, _, hex, hmin, hev, hskip⟩ := evictLRU_of_ne_nil st h
    refine ⟨k, t, hex, hmin, ?_, hskip⟩
    intro hk
    exact ⟨by rw [hev hk], by rw [hev hk]⟩
  · refine ⟨?_, ?_, ?_, ?_, ?_, ?_⟩ <;> decide

/-- Witness for claim C3 at a one-entry cache (whose key "X" is truthy). -/
theorem claim_C3_witness :
    (∃ k t, (∃ e : CacheEntry Nat, (k, e) ∈ singletonCache.cache ∧ e.lastAccessed = t) ∧
      (∀ p ∈ singletonCache.cache, t ≤ p.2.lastAccessed) ∧
      (k ≠ "" →
        (CacheService.evictLRU singletonCache).cache = eraseKey k singletonCache.cache ∧
        (CacheService.evictLRU singletonCache).stats.evictions =
          singletonCache.stats.evictions + 1) ∧
      (k = "" → CacheService.evictLRU singletonCache = singletonCache)) ∧
    (hasKey "B" lruScenario.cache = false ∧ hasKey "A" lruScenario.cache = true ∧
      hasKey "C" lruScenario.cache = true ∧ hasKey "D" lruScenario.cache = true ∧
      lruScenario.stats.evictions = 1 ∧ lruScenario.cache.length = 3) :=
  claim_C3_evicts_least_recently_accessed singletonCache (by decide)

theorem length_filter_not_add {α : Type} (q : α → Bool) (l : List α) :
    (l.filter (fun a => !(q a))).length + (l.filter q).length = l.length := by
  induction l with
  | nil => simp
  | cons a rest ih =>
      cases hq : q a <;> simp [List.filter_cons, hq] <;> omega

theorem lookupKey_filter_some {α : Type} {k : String} {v : α} {q : String × α → Bool}
    {l : List (String × α)} (h : lookupKey k (l.filter q) = some v) : q (k, v) = true := by
  induction l with
  | nil => simp [lookupKey] at h
  | cons p rest ih =>
      cases hq : q p with
      | true =>
          simp only [List.filter_cons, hq, if_true] at h
          by_cases hp : p.1 = k
          · have hv : p.2 = v := by simpa [lookupKey, hp] using h
            have hpe : (p.1, p.2) = p := rfl
            rw [← hv, ← hp, hpe]
            exact hq
          · simp only [lookupKey, if_neg hp] at h
            exact ih h
      | false =>
          simp only [List.filter_cons, hq, Bool.false_eq_true, if_false] at h
          exact ih h

theorem lookupKey_filter_of_pred {α : Type} {k : String} {v : α} {q : String × α → Bool}
    {l : List (String × α)} (h : lookupKey k l = some v) (hq : q (k, v) = true) :
    lookupKey k (l.filter q) = some v := by
  induction l with
  | nil => simp [lookupKey] at h
  | cons p rest ih =>
      by_cases hp : p.1 = k
      · have hv : p.2 = v := by simpa [lookupKey, hp] using h
        have hqp : q p = true := by
          have hpe : (p.1, p.2) = p := rfl
          rw [← hpe, hp, hv]
          exact hq
        simp only [List.filter_cons, hqp, if_true]
        simp [lookupKey, hp, hv]
      · simp only [lookupKey, if_neg hp] at h
        cases hqp : q p with
        | true =>
            simp only [List.filter_cons, hqp, if_true]
            simp only [lookupKey, if_neg hp]
            exact ih h
        | false =>
            simp only [List.filter_cons, hqp, Bool.false_eq_true, if_false]
            exact ih h

/-- Claim C4: an entry is expired exactly when `now − lastAccessed > ttl`;
an expired entry answers `get` with a counted miss and is removed, answers
`has` with `false` and is removed; an unexpired `get` returns the value and
refreshes `lastAccessed` (sliding expiration); `cleanup()` removes exactly the
expired entries, returns their number, and a second `cleanup` at the same
instant removes nothing (each expired entry is reported exactly once). -/
theorem claim_C4_sliding_ttl_expiry {T : Type} (st : CacheService T) (k : String)
    (now : Nat) (e : CacheEntry T) (decode : String → Option T)
    (hnd : (st.cache.map Prod.fst).Nodup)
    (hlocal : st.redisConnected = false)
    (hfound : lookupKey k st.cache = some e) :
    (CacheService.isExpired st.ttl now e = true ↔ st.ttl < now - e.lastAccessed) ∧
    (CacheService.isExpired st.ttl now e = true →
      (CacheService.get decode st k now).1 = none ∧
      lookupKey k (CacheService.get decode st k now).2.cache = none ∧
      (CacheService.get decode st k now).2.stats.misses = st.stats.misses + 1) ∧
    (CacheService.isExpired st.ttl now e = true →
      (CacheService.has st k now).1 = false ∧
      lookupKey k (CacheService.has st k now).2.cache = none) ∧
    (CacheService.isExpired st.ttl now e = false →
      (CacheService.get decode st k now).1 = some e.value ∧
      lookupKey k (CacheService.get decode st k now).2.cache =
        some ({ e with lastAccessed := now, accessCount := e.accessCount + 1 })) ∧
    ((CacheService.cleanup st now).2.cache.length + (CacheService.cleanup st now).1 =
        st.cache.length ∧
      (∀ k2 e2, lookupKey k2 (CacheService.cleanup st now).2.cache = some e2 →
        CacheService.isExpired st.ttl now e2 = false) ∧
      (∀ k2 e2, lookupKey k2 st.cache = some e2 →
        CacheService.isExpired st.ttl now e2 = false →
        lookupKey k2 (CacheService.cleanup st now).2.cache = some e2) ∧
      (CacheService.cleanup (CacheService.cleanup st now).2 now).1 = 0) := by
  refine ⟨?_, ?_, ?_, ?_, ?_, ?_, ?_, ?_⟩
  · simp [CacheService.isExpired]
  · intro hexp
    simp only [CacheService.get, hlocal, Bool.false_eq_true, if_false,
      CacheService.getFromMemory]
    simp [hfound, hexp, lookupKey_eraseKey_self hnd, CacheService.updateHitRate]
  · intro hexp
    simp only [CacheService.has, hlocal, Bool.false_eq_true, if_false,
      CacheService.hasMemory]
    simp [hfound, hexp, lookupKey_eraseKey_self hnd]
  · intro hexp
    simp only [CacheService.get, hlocal, Bool.false_eq_true, if_false,
      CacheService.getFromMemory]
    simp [hfound, hexp, lookupKey_replaceKey_self]
  · simpa [CacheService.cleanup] using
      length_filter_not_add (fun p => CacheService.isExpired st.ttl now p.2) st.cache
  · intro k2 e2 h2
    simp only [CacheService.cleanup] at h2
    have := lookupKey_filter_some h2
    simp only [Bool.not_eq_true'] at this
    exact this
  · intro k2 e2 h2 hfresh
    simp only [CacheService.cleanup]
    exact lookupKey_filter_of_pred h2 (by simp [hfresh])
  · simp only [CacheService.cleanup, List.filter_filter]
    have hz : ∀ p : String × CacheEntry T,
        (CacheService.isExpired st.ttl now p.2 && !(CacheService.isExpired st.ttl now p.2))
          = false := by
      intro p
      cases CacheService.isExpired st.ttl now p.2 <;> rfl
    simp [hz]

/-- Witness for claim C4: on a concrete one-entry cache a second `cleanup`
at the same instant reports zero removals. -/
theorem claim_C4_witness :
    (CacheService.cleanup (CacheService.cleanup singletonCache 1).2 1).1 = 0 :=
  (claim_C4_sliding_ttl_expiry singletonCache "X" 1
      ({ value := 1, lastAccessed := 1, accessCount := 1 }) decodeNat
      (by decide) rfl (by decide)).2.2.2.2.2.2.2

theorem hitRateOK_updateHitRate (s : CacheStats) :
    hitRateOK (CacheService.updateHitRate s) := rfl

theorem getFromMemory_stats {T : Type} (st : CacheService T) (k : String) (now : Nat) :
    (CacheService.getFromMemory st k now).2.stats.totalRequests = st.stats.totalRequests ∧
    (CacheService.getFromMemory st k now).2.stats.hits +
      (CacheService.getFromMemory st k now).2.stats.misses
      = st.stats.hits + st.stats.misses + 1 ∧
    hitRateOK (CacheService.getFromMemory st k now).2.stats ∧
    (CacheService.getFromMemory st k now).2.redisConnected = st.redisConnected := by
  unfold CacheService.getFromMemory
  split
  · refine ⟨rfl, ?_, hitRateOK_updateHitRate _, rfl⟩
    simp [CacheService.updateHitRate]
    omega
  · split
    · refine ⟨rfl, ?_, hitRateOK_updateHitRate _, rfl⟩
      simp [CacheService.updateHitRate]
      omega
    · refine ⟨rfl, ?_, hitRateOK_updateHitRate _, rfl⟩
      simp [CacheService.updateHitRate]
      omega

theorem get_stats_local {T : Type} (decode : String → Option T) (st : CacheService T)
    (k : String) (now : Nat) (hlocal : st.redisConnected = false) :
    (CacheService.get decode st k now).2.stats.totalRequests = st.stats.totalRequests + 1 ∧
    (CacheService.get decode st k now).2.stats.hits +
      (CacheService.get decode st k now).2.stats.misses
      = st.stats.hits + st.stats.misses + 1 ∧
    hitRateOK (CacheService.get decode st k now).2.stats ∧
    (CacheService.get decode st k now).2.redisConnected = false := by
  simp only [CacheService.get, hlocal, Bool.false_eq_true, if_false]
  exact getFromMemory_stats _ k now

theorem runGets_counts {T : Type} (decode : String → Option T)
    (ops : List (String × Nat)) (st : CacheService T)
    (hlocal : st.redisConnected = false) (hc : countsOK st.stats) :
    countsOK (runGets decode st ops).stats ∧
    (runGets decode st ops).redisConnected = false := by
  induction ops generalizing st with
  | nil => exact ⟨hc, hlocal⟩
  | cons op rest ih =>
      obtain ⟨htotal, hsum, _, hconn⟩ := get_stats_local decode st op.1 op.2 hlocal
      exact ih (CacheService.get decode st op.1 op.2).2 hconn
        (by unfold countsOK at hc ⊢; omega)

/-- Claim C5: the reported `hitRate` always equals
`hits / totalRequests × 100` (0 when `totalRequests = 0`); in local-only mode
every `get` counts one request and classifies it as exactly one hit or miss,
this accounting is preserved over any sequence of `get`s, and consequently a
stats record with `h` hits and `m` misses reports `h/(h+m) × 100`. -/
theorem claim_C5_hit_rate_formula {T : Type} (decode : String → Option T)
    (st : CacheService T) (k : String) (now : Nat) (ops : List (String × Nat))
    (m ttlm : Nat) (hlocal : st.redisConnected = false) :
    hitRateOK (CacheService.mkLocal T m ttlm).stats ∧
    (CacheService.mkLocal T m ttlm).stats.totalRequests = 0 ∧
    hitRateOK (CacheService.get decode st k now).2.stats ∧
    ((CacheService.get decode st k now).2.stats.totalRequests
        = st.stats.totalRequests + 1 ∧
      (CacheService.get decode st k now).2.stats.hits +
        (CacheService.get decode st k now).2.stats.misses
        = st.stats.hits + st.stats.misses + 1) ∧
    (countsOK st.stats → countsOK (runGets decode st ops).stats) ∧
    (∀ s : CacheStats, countsOK s → hitRateOK s →
      (0 < s.totalRequests →
        s.hitRate = (s.hits : ℚ) / ((s.hits : ℚ) + (s.misses : ℚ)) * 100) ∧
      (s.totalRequests = 0 → s.hitRate = 0)) := by
  obtain ⟨htotal, hsum, hrate, hconn⟩ := get_stats_local decode st k now hlocal
  refine ⟨?_, rfl, hrate, ⟨htotal, hsum⟩, ?_, ?_⟩
  · simp [hitRateOK, CacheService.mkLocal, CacheService.initStats]
  · intro hc
    exact (runGets_counts decode ops st hlocal hc).1
  · intro s hc hr
    constructor
    · intro hpos
      unfold hitRateOK at hr
      unfold countsOK at hc
      rw [hr, if_pos hpos, ← hc]
      push_cast
      ring
    · intro hz
      unfold hitRateOK at hr
      rw [hr, hz]
      simp

/-- Witness for claim C5: one `get` on a fresh local-only cache counts one
request. -/
theorem claim_C5_witness :
    (CacheService.get decodeNat (CacheService.mkLocal Nat 3 1) "k" 0).2.stats.totalRequests
      = 1 := by
  have h := claim_C5_hit_rate_formula decodeNat (CacheService.mkLocal Nat 3 1) "k" 0 []
    3 1 rfl
  exact h.2.2.2.1.1

/-- Claim C9: `delete(k)` returns true exactly when the key was removed from
at least one tier (remote removal requires a believed-connected, reachable
remote holding the key); on a key absent from both tiers it returns false and
leaves the local store — hence `size()` — unchanged. -/
theorem claim_C9_delete_semantics {T : Type} (st : CacheService T) (k : String) :
    ((CacheService.delete st k).1 =
      ((st.redisConnected && st.remoteUp && hasKey k st.remote) || hasKey k st.cache)) ∧
    (hasKey k st.remote = false → hasKey k st.cache = false →
      (CacheService.delete st k).1 = false ∧
      (CacheService.delete st k).2.cache = st.cache ∧
      CacheService.size (CacheService.delete st k).2 = CacheService.size st) := by
  have hframe : (CacheService.delete st k).2.cache = eraseKey k st.cache := by
    unfold CacheService.delete
    cases hr : st.redisConnected <;> cases hu : st.remoteUp <;>
      simp [CacheService.handleRedisError]
  constructor
  · unfold CacheService.delete
    cases hr : st.redisConnected <;> cases hu : st.remoteUp <;>
      simp [CacheService.handleRedisError]
  · intro hrem hloc
    have herase : eraseKey k st.cache = st.cache :=
      eraseKey_of_lookup_none (hasKey_false_lookup_none hloc)
    refine ⟨?_, ?_, ?_⟩
    · unfold CacheService.delete
      cases hr : st.redisConnected <;> cases hu : st.remoteUp <;>
        simp [CacheService.handleRedisError, hrem, hloc]
    · rw [hframe, herase]
    · unfold CacheService.size
      rw [hframe, herase]

/-- Witness for claim C9: deleting the absent key "Z" from a one-entry cache
returns false and keeps the size. -/
theorem claim_C9_witness :
    (CacheService.delete singletonCache "Z").1 = false ∧
    (CacheService.delete singletonCache "Z").2.cache = singletonCache.cache ∧
    CacheService.size (CacheService.delete singletonCache "Z").2 =
      CacheService.size singletonCache :=
  (claim_C9_delete_semantics singletonCache "Z").2 (by decide) (by decide)

/-- Claim C10: a `set(k, v)` on a key already present replaces the entry with
`accessCount = 1` and `lastAccessed = now`, discarding the key's accumulated
access history; the write is in place (no eviction, size unchanged). -/
theorem claim_C10_set_resets_access_history {T : Type} (st : CacheService T) (k : String)
    (v : T) (now : Nat) (e : CacheEntry T) (hfound : lookupKey k st.cache = some e) :
    lookupKey k (CacheService.setInMemory st k v now).cache =
      some ({ value := v, lastAccessed := now, accessCount := 1 }) ∧
    (CacheService.setInMemory st k v now).stats.evictions = st.stats.evictions ∧
    (CacheService.setInMemory st k v now).cache.length = st.cache.length := by
  have hsome : (lookupKey k st.cache).isSome := by rw [hfound]; rfl
  have hc : ¬ (st.maxSize ≤ st.cache.length ∧ hasKey k st.cache = false) := by
    intro hcc
    rw [hasKey, hfound] at hcc
    simp at hcc
  refine ⟨lookupKey_setInMemory_self st k v now, ?_, ?_⟩
  · simp only [CacheService.setInMemory, if_neg hc]
  · simp only [CacheService.setInMemory, if_neg hc]
    exact length_replaceKey_mem _ hsome

/-- Witness for claim C10: rewriting the present key "X" (old `accessCount`
1, old `lastAccessed` 1) yields `accessCount = 1`, `lastAccessed = 5`. -/
theorem claim_C10_witness :
    lookupKey "X" (CacheService.setInMemory singletonCache "X" 9 5).cache =
      some ({ value := 9, lastAccessed := 5, accessCount := 1 }) ∧
    (CacheService.setInMemory singletonCache "X" 9 5).stats.evictions =
      singletonCache.stats.evictions ∧
    (CacheService.setInMemory singletonCache "X" 9 5).cache.length =
      singletonCache.cache.length :=
  claim_C10_set_resets_access_history singletonCache "X" 9 5
    ({ value := 1, lastAccessed := 1, accessCount := 1 }) (by decide)

theorem getFromMemory_fallbackActive {T : Type} (st : CacheService T) (k : String)
    (now : Nat) :
    (CacheService.getFromMemory st k now).2.stats.fallbackActive =
      st.stats.fallbackActive := by
  unfold CacheService.getFromMemory
  split
  · rfl
  · split <;> rfl

theorem getFromMemory_remote {T : Type} (st : CacheService T) (k : String) (now : Nat) :
    (CacheService.getFromMemory st k now).2.remote = st.remote := by
  unfold CacheService.getFromMemory
  split
  · rfl
  · split <;> rfl

theorem getFromMemory_hits_ge {T : Type} (st : CacheService T) (k : String) (now : Nat) :
    st.stats.hits ≤ (CacheService.getFromMemory st k now).2.stats.hits := by
  unfold CacheService.getFromMemory
  split
  · exact le_refl _
  · split
    · exact le_refl _
    · simp [CacheService.updateHitRate]

theorem hasMemory_stats {T : Type} (st : CacheService T) (k : String) (now : Nat) :
    (CacheService.hasMemory st k now).2.stats = st.stats := by
  unfold CacheService.hasMemory
  split
  · rfl
  · split <;> rfl

/-- Claim C7: with the remote tier failing on every call, each of
get/set/delete/has/clear still completes (all operations are total functions
of the model), is served by the local tier, and leaves
`stats.fallbackActive = true`. -/
theorem claim_C7_remote_failure_isolated {T : Type} (decode : String → Option T)
    (encode : T → String) (st : CacheService T) (k : String) (v : T) (now : Nat)
    (hconn : st.redisConnected = true) (hdown : st.remoteUp = false) :
    (CacheService.get decode st k now).2.stats.fallbackActive = true ∧
    CacheService.get decode st k now =
      CacheService.getFromMemory (CacheService.handleRedisError
        ({ st with stats :=
            { st.stats with totalRequests := st.stats.totalRequests + 1 } })) k now ∧
    (CacheService.set encode st k v now).stats.fallbackActive = true ∧
    CacheService.set encode st k v now =
      CacheService.setInMemory (CacheService.handleRedisError st) k v now ∧
    lookupKey k (CacheService.set encode st k v now).cache =
      some ({ value := v, lastAccessed := now, accessCount := 1 }) ∧
    (CacheService.delete st k).2.stats.fallbackActive = true ∧
    (CacheService.has st k now).2.stats.fallbackActive = true ∧
    (CacheService.clear st).stats.fallbackActive = true := by
  have hget : CacheService.get decode st k now =
      CacheService.getFromMemory (CacheService.handleRedisError
        ({ st with stats :=
            { st.stats with totalRequests := st.stats.totalRequests + 1 } })) k now := by
    simp [CacheService.get, hconn, hdown]
  have hset : CacheService.set encode st k v now =
      CacheService.setInMemory (CacheService.handleRedisError st) k v now := by
    simp [CacheService.set, hconn, hdown]
  refine ⟨?_, hget, ?_, hset, ?_, ?_, ?_, ?_⟩
  · rw [hget, getFromMemory_fallbackActive]
    rfl
  · rw [hset]
    have := setInMemory_stats (CacheService.handleRedisError st) k v now
    rw [this]
    rfl
  · rw [hset]
    exact lookupKey_setInMemory_self _ k v now
  · simp [CacheService.delete, hconn, hdown, CacheService.handleRedisError]
  · simp only [CacheService.has, hconn, hdown, Bool.false_eq_true, if_false, if_true]
    rw [hasMemory_stats]
    rfl
  · simp [CacheService.clear, hconn, hdown, CacheService.resetStats,
      CacheService.handleRedisError]

/-- Witness for claim C7: a failing remote on a concrete connected cache. -/
theorem claim_C7_witness :
    (CacheService.get decodeNat downRemoteState "k" 0).2.stats.fallbackActive = true ∧
    lookupKey "k" (CacheService.set (fun _ => "") downRemoteState "k" 7 0).cache =
      some ({ value := 7, lastAccessed := 0, accessCount := 1 }) := by
  have h := claim_C7_remote_failure_isolated decodeNat (fun _ => "") downRemoteState
    "k" 7 0 rfl rfl
  exact ⟨h.1, h.2.2.2.2.1⟩

/-- Counterexample to claim C6: with the remote tier holding the malformed
payload "oops" for key "k", `get("k")` falls back to the local tier but does
NOT purge the offending remote entry — it is still present afterwards — and
the request was counted as a hit (not a miss) before the decode failure. -/
theorem claim_C6_counterexample :
    hasKey "k" (CacheService.get decodeNat malformedRemoteState "k" 0).2.remote = true ∧
    (CacheService.get decodeNat malformedRemoteState "k" 0).2.remote =
      malformedRemoteState.remote ∧
    (CacheService.get decodeNat malformedRemoteState "k" 0).1 = none ∧
    (CacheService.get decodeNat malformedRemoteState "k" 0).2.stats.hits = 1 ∧
    (CacheService.get decodeNat malformedRemoteState "k" 0).2.redisConnected = false := by
  refine ⟨?_, ?_, ?_, ?_, ?_⟩ <;> decide

/-- Claim C6 (amended): when the remote tier returns a payload that fails to
decode, the error is caught like a remote failure: the call falls through to
the local tier, the remote tier is marked disconnected and
`fallbackActive` is set — but the offending cached entry is NOT purged (the
remote store is unchanged) and the request has already been counted as a
hit. -/
theorem claim_C6_malformed_value_amended {T : Type} (decode : String → Option T)
    (st : CacheService T) (k : String) (now : Nat) (raw : String)
    (hconn : st.redisConnected = true) (hup : st.remoteUp = true)
    (hraw : lookupKey k st.remote = some raw) (hbad : decode raw = none) :
    (CacheService.get decode st k now).2.remote = st.remote ∧
    (CacheService.get decode st k now).2.redisConnected = false ∧
    (CacheService.get decode st k now).2.stats.fallbackActive = true ∧
    st.stats.hits + 1 ≤ (CacheService.get decode st k now).2.stats.hits ∧
    CacheService.get decode st k now =
      CacheService.getFromMemory
        (CacheService.handleRedisError ({ st with stats := remoteHitStats st.stats }))
        k now := by
  have hget : CacheService.get decode st k now =
      CacheService.getFromMemory
        (CacheService.handleRedisError ({ st with stats := remoteHitStats st.stats }))
        k now := by
    simp [CacheService.get, hconn, hup, hraw, hbad, remoteHitStats]
  refine ⟨?_, ?_, ?_, ?_, hget⟩
  · rw [hget, getFromMemory_remote]
    rfl
  · rw [hget]
    have h := getFromMemory_stats
      (CacheService.handleRedisError ({ st with stats := remoteHitStats st.stats })) k now
    rw [h.2.2.2]
    rfl
  · rw [hget, getFromMemory_fallbackActive]
    rfl
  · rw [hget]
    have h := getFromMemory_hits_ge
      (CacheService.handleRedisError ({ st with stats := remoteHitStats st.stats })) k now
    refine le_trans ?_ h
    simp [remoteHitStats, CacheService.updateHitRate, CacheService.handleRedisError]

/-- Witness for the amended claim C6 at the concrete malformed-payload
state. -/
theorem claim_C6_witness :
    (CacheService.get decodeNat malformedRemoteState "k" 0).2.remote =
      malformedRemoteState.remote ∧
    (CacheService.get decodeNat malformedRemoteState "k" 0).2.stats.fallbackActive
      = true := by
  have h := claim_C6_malformed_value_amended decodeNat malformedRemoteState "k" 0 "oops"
    rfl rfl (by decide) (by decide)
  exact ⟨h.1, h.2.2.1⟩

theorem filterlen_replaceKey_none {α : Type} (q : String × α → Bool) {k : String}
    {l : List (String × α)} (v : α) (h : lookupKey k l = none) :
    ((replaceKey k v l).filter q).length
      = (l.filter q).length + (if q (k, v) = true then 1 else 0) := by
  induction l with
  | nil =>
      cases hq : q (k, v) <;> simp [replaceKey, List.filter_cons, hq]
  | cons p rest ih =>
      by_cases hp : p.1 = k
      · simp [lookupKey, hp] at h
      · simp only [lookupKey, if_neg hp] at h
        have hih := ih h
        simp only [replaceKey, if_neg hp]
        cases hq : q p <;> simp [List.filter_cons, hq] <;> omega

theorem filterlen_replaceKey_some {α : Type} (q : String × α → Bool) {k : String} {w : α}
    {l : List (String × α)} (v : α) (h : lookupKey k l = some w) :
    ((replaceKey k v l).filter q).length + (if q (k, w) = true then 1 else 0)
      = (l.filter q).length + (if q (k, v) = true then 1 else 0) := by
  induction l with
  | nil => simp [lookupKey] at h
  | cons p rest ih =>
      by_cases hp : p.1 = k
      · have hw : p.2 = w := by simpa [lookupKey, hp] using h
        have hqp : q p = q (k, w) := by
          have hpe : (p.1, p.2) = p := rfl
          rw [← hpe, hp, hw]
        simp only [replaceKey, if_pos hp]
        cases hq1 : q (k, v) <;> cases hq2 : q (k, w) <;>
          simp [List.filter_cons, hq1, hq2, hqp]
      · simp only [lookupKey, if_neg hp] at h
        have hih := ih h
        simp only [replaceKey, if_neg hp]
        cases hq : q p <;> simp [List.filter_cons, hq] <;> omega

/-- Counterexample to claim C8: after four tracked requests for "a"
(`requestCount = 4`), pre-caching has been triggered (count exceeds 3), yet
the aggregate hot-key count is 0 while the number of tracked keys with
`requestCount > 3` is 1 — the statistics use the different threshold 5, not
the pre-caching threshold 3. -/
theorem claim_C8_counterexample :
    trackFourTimes.2 = true ∧
    PatternTracker.hotUrlsCount trackFourTimes.1 = 0 ∧
    (trackFourTimes.1.filter (fun p => decide (3 < p.2.requestCount))).length = 1 ∧
    PatternTracker.hotUrlsCount trackFourTimes.1 ≠
      (trackFourTimes.1.filter (fun p => decide (3 < p.2.requestCount))).length := by
  refine ⟨?_, ?_, ?_, ?_⟩ <;> decide

/-- Claim C8 (amended): a tracked request increments the key's
`requestCount` and triggers asynchronous pre-caching exactly when the new
count exceeds 3, while the aggregate hot-key count uses the distinct, higher
threshold 5: tracking a request changes the hot-key count exactly when the
key's count crosses 5, so keys with counts 4 and 5 trigger pre-caching
without being reported hot. -/
theorem claim_C8_hot_threshold_amended (patterns : List (String × RequestPattern))
    (k : String) (now : Nat) :
    ((PatternTracker.trackRequest patterns k now).2 = true ↔
      3 < ((lookupKey k patterns).getD
        ({ shortCode := k, requestCount := 0, lastAccessed := 0,
           avgResponseTime := 0 })).requestCount + 1) ∧
    (PatternTracker.hotUrlsCount (PatternTracker.trackRequest patterns k now).1 +
        (if 5 < ((lookupKey k patterns).getD
            ({ shortCode := k, requestCount := 0, lastAccessed := 0,
               avgResponseTime := 0 })).requestCount then 1 else 0)
      = PatternTracker.hotUrlsCount patterns +
        (if 5 < ((lookupKey k patterns).getD
            ({ shortCode := k, requestCount := 0, lastAccessed := 0,
               avgResponseTime := 0 })).requestCount + 1 then 1 else 0)) := by
  constructor
  · simp [PatternTracker.trackRequest]
  · cases hl : lookupKey k patterns with
    | none =>
        simp only [PatternTracker.hotUrlsCount, PatternTracker.trackRequest, hl,
          Option.getD_none]
        rw [filterlen_replaceKey_none _ _ hl]
        simp
    | some w =>
        simp only [PatternTracker.hotUrlsCount, PatternTracker.trackRequest, hl,
          Option.getD_some]
        have hs := filterlen_replaceKey_some (fun p => decide (5 < p.2.requestCount))
          ({ shortCode := w.shortCode, requestCount := w.requestCount + 1,
             lastAccessed := now, avgResponseTime := w.avgResponseTime }) hl
        simp only [decide_eq_true_eq] at hs
        omega

/-- Witness for the amended claim C8 at the concrete four-request tracker
state. -/
theorem claim_C8_witness :
    PatternTracker.hotUrlsCount (PatternTracker.trackRequest trackFourTimes.1 "a" 5).1 +
      (if 5 < ((lookupKey "a" trackFourTimes.1).getD
          ({ shortCode := "a", requestCount := 0, lastAccessed := 0,
             avgResponseTime := 0 })).requestCount then 1 else 0)
    = PatternTracker.hotUrlsCount trackFourTimes.1 +
      (if 5 < ((lookupKey "a" trackFourTimes.1).getD
          ({ shortCode := "a", requestCount := 0, lastAccessed := 0,
             avgResponseTime := 0 })).requestCount + 1 then 1 else 0) :=
  (claim_C8_hot_threshold_amended trackFourTimes.1 "a" 5).2

end UrlShortener
